import Mathlib

/-!
Shallow embedding of the event_framework core (src/event_framework/core.py):
an in-process event propagation engine.  Facts (Datum) are dispatched by a
Nexus to stateful reactors (ActualOccasion); derived facts are rewritten to
thread correlation/causation ids, passed through a middleware chain and
requeued, breadth first, until the queue is empty.

Python specifics kept faithfully:
- payload is opaque to the engine: modelled as a type parameter.
- timestamps: created_at is modelled as a Nat drawn from a clock counter
  threaded through the loop; every Datum constructed by the engine without an
  explicit created_at consumes one fresh tick.
- the expression (current.correlation_id or current.id) uses Python
  truthiness: None and the empty string are both falsy.
- the propagation loop of Nexus.emit can diverge, so it is modelled with an
  explicit fuel parameter; the run result carries the unprocessed queue, and
  the run corresponds to a terminating Python call exactly when that queue is
  empty.
- reaction functions (subjective forms) mutate the state of their own
  occasion; this is modelled by explicit state passing.
-/

namespace EventFramework

/-- Embeds Datum (core.py lines 9-18): an immutable fact with a name, an
opaque payload, an id, a creation timestamp and optional correlation and
causation ids. -/
structure Datum (P : Type) where
  name : String
  payload : P
  id : String
  created_at : Nat
  correlation_id : Option String := none
  causation_id : Option String := none
deriving DecidableEq, Repr

/-- Embeds DatumSelector (core.py line 22): a predicate over facts. -/
def DatumSelector (P : Type) : Type := Datum P → Bool

/-- Embeds SubjectiveForm (core.py line 21): a reaction function; it receives
the state of its occasion, may replace it, and returns the facts it yields. -/
def SubjectiveForm (P S : Type) : Type := S → Datum P → S × List (Datum P)

/-- Embeds ActualOccasion (core.py lines 25-37): a named reactor holding
mutable state and an ordered list of (selector, form) bindings. -/
structure ActualOccasion (P S : Type) where
  name : String
  state : S
  bindings : List (DatumSelector P × SubjectiveForm P S)

/-- Embeds ActualOccasion.on (core.py lines 39-56): appends a binding. -/
def ActualOccasion.on (occ : ActualOccasion P S) (selector : DatumSelector P)
    (form : SubjectiveForm P S) : ActualOccasion P S :=
  { occ with bindings := occ.bindings ++ [(selector, form)] }

/-- State-passing core of ActualOccasion.handle (core.py lines 79-81): walk
the bindings in order; on a match run the form once, keep its new state and
append its yielded facts. -/
def handleAux (d : Datum P) :
    S → List (DatumSelector P × SubjectiveForm P S) → S × List (Datum P)
  | s, [] => (s, [])
  | s, (selector, form) :: rest =>
    if selector d then
      let r := form s d
      let t := handleAux d r.1 rest
      (t.1, r.2 ++ t.2)
    else handleAux d s rest

/-- Embeds ActualOccasion.handle (core.py lines 58-81): returns the occasion
with its state after all matching forms ran, plus the yielded facts. -/
def ActualOccasion.handle (occ : ActualOccasion P S) (d : Datum P) :
    ActualOccasion P S × List (Datum P) :=
  let r := handleAux d occ.state occ.bindings
  ({ occ with state := r.1 }, r.2)

/-- Python truthiness of (o or dflt) for an optional string: both None and
the empty string are falsy (core.py line 206). -/
def pyOrElse (o : Option String) (dflt : String) : String :=
  match o with
  | none => dflt
  | some s => if s = "" then dflt else s

/-- Embeds the Datum constructed at core.py lines 203-209: keeps name,
payload and id of the derived fact, threads correlation/causation from the
fact being processed, and takes a fresh created_at (the default factory). -/
def rewriteDerived (current d : Datum P) (now : Nat) : Datum P :=
  { name := d.name
    payload := d.payload
    id := d.id
    created_at := now
    correlation_id := some (pyOrElse current.correlation_id current.id)
    causation_id := some current.id }

/-- Embeds the list comprehension at core.py lines 202-211: rewrites each
derived fact in order; each construction consumes one fresh clock tick. -/
def rewriteAll (current : Datum P) :
    List (Datum P) → Nat → List (Datum P) × Nat
  | [], clock => ([], clock)
  | d :: rest, clock =>
    let t := rewriteAll current rest (clock + 1)
    (rewriteDerived current d clock :: t.1, t.2)

/-- Embeds Nexus._apply_middlewares (core.py lines 163-179): left-to-right
application of the registered transforms. -/
def applyMiddlewares (mws : List (Datum P → Datum P)) (d : Datum P) : Datum P :=
  mws.foldl (fun acc mw => mw acc) d

/-- Result of processing one dequeued fact against every occasion:
the updated occasions, the rewritten derived facts (before middleware), the
facts appended to the queue (after middleware), and the clock. -/
structure StepResult (P S : Type) where
  occs : List (ActualOccasion P S)
  rewritten : List (Datum P)
  appended : List (Datum P)
  clock : Nat

/-- Embeds one iteration of the while loop of Nexus.emit (core.py lines
197-213): every occasion, in registration order, handles the current fact;
its derived facts are rewritten and, after middleware, appended in order. -/
def processOne (mws : List (Datum P → Datum P)) (current : Datum P) :
    List (ActualOccasion P S) → Nat → StepResult P S
  | [], clock => ⟨[], [], [], clock⟩
  | occ :: rest, clock =>
    let h := occ.handle current
    let rw := rewriteAll current h.2 clock
    let t := processOne mws current rest rw.2
    ⟨h.1 :: t.occs, rw.1 ++ t.rewritten,
      rw.1.map (applyMiddlewares mws) ++ t.appended, t.clock⟩

/-- State of a propagation run: the observed facts, the occasions, the
still-unprocessed queue (empty iff the Python loop has terminated) and the
clock. -/
structure RunResult (P S : Type) where
  seen : List (Datum P)
  occs : List (ActualOccasion P S)
  queue : List (Datum P)
  clock : Nat

/-- Embeds the while loop of Nexus.emit (core.py lines 193-213), with fuel:
processes at most fuel facts from the head of the FIFO queue. -/
def emitRun (mws : List (Datum P → Datum P)) :
    Nat → List (ActualOccasion P S) → List (Datum P) → List (Datum P) → Nat →
    RunResult P S
  | _, occs, [], seen, clock => ⟨seen, occs, [], clock⟩
  | 0, occs, current :: rest, seen, clock => ⟨seen, occs, current :: rest, clock⟩
  | Nat.succ fuel, occs, current :: rest, seen, clock =>
    let st := processOne mws current occs clock
    emitRun mws fuel st.occs (rest ++ st.appended) (seen ++ [current]) st.clock

/-- Embeds the Python dict assignment of Nexus.add (core.py line 130) on an
insertion-ordered association list: replace in place the occasion already
registered under that name, else append. -/
def addOne : List (ActualOccasion P S) → ActualOccasion P S →
    List (ActualOccasion P S)
  | [], occ => [occ]
  | o :: rest, occ =>
    if o.name = occ.name then occ :: rest else o :: addOne rest occ

/-- Embeds Nexus (core.py lines 99-118): a name, the registered occasions in
insertion order with unique names, and the middleware list. -/
structure Nexus (P S : Type) where
  name : String
  occasions : List (ActualOccasion P S)
  middlewares : List (Datum P → Datum P)

/-- Embeds Nexus.add (core.py lines 120-131): registers each occasion by
name, silently replacing a previous occasion under the same name. -/
def Nexus.add (n : Nexus P S) (occs : List (ActualOccasion P S)) : Nexus P S :=
  { n with occasions := occs.foldl addOne n.occasions }

/-- Embeds Nexus.use (core.py lines 146-161): appends a middleware. -/
def Nexus.use (n : Nexus P S) (mw : Datum P → Datum P) : Nexus P S :=
  { n with middlewares := n.middlewares ++ [mw] }

/-- Embeds Nexus.emit (core.py lines 181-215): seeds the queue with the
middleware-applied initial facts and runs the loop with the given fuel. -/
def Nexus.emit (n : Nexus P S) (data : List (Datum P)) (fuel clock : Nat) :
    RunResult P S :=
  emitRun n.middlewares fuel n.occasions
    (data.map (applyMiddlewares n.middlewares)) [] clock

/-- The value returned by the Python Nexus.emit when it terminates within
the given fuel: the observed facts, in observation order. -/
def Nexus.emitResult (n : Nexus P S) (data : List (Datum P))
    (fuel clock : Nat) : Option (List (Datum P)) :=
  let r := n.emit data fuel clock
  if r.queue.isEmpty then some r.seen else none

/-- Embeds Nexus.snapshot (core.py lines 217-226): occasion name to current
state, in registration order. -/
def Nexus.snapshot (n : Nexus P S) : List (String × S) :=
  n.occasions.map (fun occ => (occ.name, occ.state))

/-- The derived facts all occasions yield for one fact, reactor registration
order first, then yield order (the concatenation of the handle outputs read
off at core.py line 199). -/
def derivedFacts (occs : List (ActualOccasion P S)) (current : Datum P) :
    List (Datum P) :=
  (occs.map (fun occ => (occ.handle current).2)).flatten

/-!
Fallible model: selectors and forms in the Python source are arbitrary
callables that may raise.  The same control flow as above is embedded with
Except; a raising evaluation is an error value.  A form that raises after
having mutated its occasion state leaves the mutation behind, so a fallible
form returns the state it left together with either its facts or the
exception; the engine itself never catches anything.
-/

/-- A selector that may raise (core.py line 80 evaluates it bare). -/
def SelectorE (P E : Type) : Type := Datum P → Except E Bool

/-- A reaction function that may raise (core.py line 81 evaluates it bare):
it returns the state it left behind and either its yielded facts or the
exception. -/
def FormE (P S E : Type) : Type := S → Datum P → S × Except E (List (Datum P))

/-- ActualOccasion with fallible bindings. -/
structure OccasionE (P S E : Type) where
  name : String
  state : S
  bindings : List (SelectorE P E × FormE P S E)

/-- ActualOccasion.handle over fallible bindings (core.py lines 79-81): the
first raising selector or form aborts the walk; state changes made by the
forms that already ran are kept. -/
def handleAuxE (d : Datum P) :
    S → List (SelectorE P E × FormE P S E) → S × Except E (List (Datum P))
  | s, [] => (s, Except.ok [])
  | s, (selector, form) :: rest =>
    match selector d with
    | Except.error e => (s, Except.error e)
    | Except.ok false => handleAuxE d s rest
    | Except.ok true =>
      let r := form s d
      match r.2 with
      | Except.error e => (r.1, Except.error e)
      | Except.ok out =>
        let t := handleAuxE d r.1 rest
        match t.2 with
        | Except.error e => (t.1, Except.error e)
        | Except.ok out2 => (t.1, Except.ok (out ++ out2))

/-- Fallible ActualOccasion.handle: the occasion with whatever state the run
left, plus the outcome. -/
def handleE (occ : OccasionE P S E) (d : Datum P) :
    OccasionE P S E × Except E (List (Datum P)) :=
  let r := handleAuxE d occ.state occ.bindings
  ({ occ with state := r.1 }, r.2)

/-- One iteration of the emit loop over fallible occasions (core.py lines
197-213): a raising occasion aborts the pass; occasions already handled keep
their new state, occasions after the failure are untouched. -/
def processOneE (mws : List (Datum P → Datum P)) (current : Datum P) :
    List (OccasionE P S E) → Nat →
    List (OccasionE P S E) × Nat × Except E (List (Datum P))
  | [], clock => ([], clock, Except.ok [])
  | occ :: rest, clock =>
    let h := handleE occ current
    match h.2 with
    | Except.error e => (h.1 :: rest, clock, Except.error e)
    | Except.ok derived =>
      let rw := rewriteAll current derived clock
      let t := processOneE mws current rest rw.2
      match t.2.2 with
      | Except.error e => (h.1 :: t.1, t.2.1, Except.error e)
      | Except.ok appended =>
        (h.1 :: t.1, t.2.1, Except.ok (rw.1.map (applyMiddlewares mws) ++ appended))

/-- The while loop of Nexus.emit over fallible occasions, with fuel.  On an
exception the run aborts at once: the observed list is lost to the caller
(it was local to emit) and only the error escapes; the occasion states, which
live outside emit, keep every mutation already applied. -/
def emitRunE (mws : List (Datum P → Datum P)) :
    Nat → List (OccasionE P S E) → List (Datum P) → List (Datum P) → Nat →
    List (OccasionE P S E) × Option (Except E (List (Datum P)))
  | _, occs, [], seen, _ => (occs, some (Except.ok seen))
  | 0, occs, _ :: _, _, _ => (occs, none)
  | Nat.succ fuel, occs, current :: rest, seen, clock =>
    let st := processOneE mws current occs clock
    match st.2.2 with
    | Except.error e => (st.1, some (Except.error e))
    | Except.ok appended =>
      emitRunE mws fuel st.1 (rest ++ appended) (seen ++ [current]) st.2.1

/-!
Concrete scenarios used by counterexamples and witnesses.
-/

/-- A fact being processed whose correlation id is present but empty. -/
def curBlank : Datum Nat := ⟨"cur", 0, "cur-id", 0, some "", none⟩

/-- A fact being processed that carries a nonempty correlation id. -/
def curRoot : Datum Nat := ⟨"cur", 0, "cur-id", 0, some "root", none⟩

/-- The fixed fact occRelay yields: its reaction function set its own
correlation and causation values. -/
def relayOut : Datum Nat := ⟨"out", 7, "d-id", 99, some "set-by-form", some "also-set"⟩

/-- One occasion whose single binding matches every fact and yields
relayOut. -/
def occRelay : ActualOccasion Nat Nat :=
  ⟨"relay", 0, [(fun _ => true, fun s _ => (s, [relayOut]))]⟩

/-- The echo reactor exactly as the claim words it: it matches every fact
and yields one echo fact for each. -/
def echoAllOcc : ActualOccasion Nat Nat :=
  ⟨"echo", 0,
    [(fun _ => true,
      fun s d => (s, [⟨"echo_" ++ d.name, d.payload, "e-" ++ d.id, 0, none, none⟩]))]⟩

/-- Dispatcher holding only the match-everything echo reactor. -/
def nexusEchoAll : Nexus Nat Nat := ⟨"nx", [echoAllOcc], []⟩

/-- An echo reactor that matches the two initial facts but not its own echo
outputs. -/
def echoOcc : ActualOccasion Nat Nat :=
  ⟨"echo", 0,
    [(fun d => decide (d.name = "first" ∨ d.name = "second"),
      fun s d => (s, [⟨"echo_" ++ d.name, d.payload, "e-" ++ d.id, 0, none, none⟩]))]⟩

/-- Dispatcher holding only the non-self-matching echo reactor. -/
def nexusEcho : Nexus Nat Nat := ⟨"nx", [echoOcc], []⟩

/-- First initial fact of the interleaving scenario. -/
def firstFact : Datum Nat := ⟨"first", 1, "f-1", 0, none, none⟩

/-- Second initial fact of the interleaving scenario. -/
def secondFact : Datum Nat := ⟨"second", 2, "f-2", 1, none, none⟩

/-- A counter occasion: every fact increments its state and yields nothing. -/
def ctrOcc : ActualOccasion Nat Nat :=
  ⟨"counter", 0, [(fun _ => true, fun s _ => (s + 1, []))]⟩

/-- Dispatcher holding only the counter occasion. -/
def nexusCtr : Nexus Nat Nat := ⟨"nx", [ctrOcc], []⟩

/-- First fact fed to the counter dispatcher. -/
def tickA : Datum Nat := ⟨"tick", 0, "t-a", 0, none, none⟩

/-- Second fact fed to the counter dispatcher. -/
def tickB : Datum Nat := ⟨"tick", 0, "t-b", 1, none, none⟩

/-- Fallible occasion whose form mutates its state and succeeds. -/
def occMut : OccasionE Nat Nat String :=
  ⟨"mut", 0, [(fun _ => Except.ok true, fun s _ => (s + 1, Except.ok []))]⟩

/-- Fallible occasion whose form mutates its state and then raises. -/
def occBoom : OccasionE Nat Nat String :=
  ⟨"boom", 0, [(fun _ => Except.ok true, fun s _ => (s + 7, Except.error "boom"))]⟩

/-- Fallible occasion, registered after occBoom, that would mutate its state
if it were ever reached. -/
def occAfter : OccasionE Nat Nat String :=
  ⟨"after", 0, [(fun _ => Except.ok true, fun s _ => (s + 100, Except.ok []))]⟩

/-- The fact whose processing hits the raising form. -/
def curBoom : Datum Nat := ⟨"cur", 0, "c-1", 0, none, none⟩

/-- A selector matching every fact. -/
def selTrue : DatumSelector Nat := fun _ => true

/-- First form of the two-binding witness occasion. -/
def formA : SubjectiveForm Nat Nat := fun s _ => (s + 1, [relayOut])

/-- Second form of the two-binding witness occasion. -/
def formB : SubjectiveForm Nat Nat := fun s _ => (s * 2, [curRoot])

/-- A selector matching only facts named other. -/
def selOther : DatumSelector Nat := fun d => decide (d.name = "other")

/-- An occasion whose only binding never matches the facts fed to it. -/
def occIdle : ActualOccasion Nat Nat := ⟨"idle", 0, [(selOther, fun s _ => (s, []))]⟩

/-- Dispatcher holding only the never-matching occasion. -/
def nexusIdle : Nexus Nat Nat := ⟨"nx", [occIdle], []⟩

/-- First occasion registered under the name dup. -/
def occDup1 : ActualOccasion Nat Nat := ⟨"dup", 1, []⟩

/-- Second occasion registered under the same name dup. -/
def occDup2 : ActualOccasion Nat Nat := ⟨"dup", 2, []⟩

/-- A dispatcher with no occasions registered yet. -/
def nexusBare : Nexus Nat Nat := ⟨"nx", [], []⟩

/-!
Helper lemmas.
-/

lemma handleAux_no_match {P S : Type} (d : Datum P) (s : S)
    (bs : List (DatumSelector P × SubjectiveForm P S))
    (h : ∀ b ∈ bs, b.1 d = false) : handleAux d s bs = (s, []) := by
  induction bs with
  | nil => rfl
  | cons b rest ih =>
    obtain ⟨sel, form⟩ := b
    have hb : sel d = false := h (sel, form) (List.mem_cons_self _ rest)
    simp only [handleAux, hb, Bool.false_eq_true, if_false]
    exact ih fun b hb => h b (List.mem_cons_of_mem _ hb)

lemma handle_no_match {P S : Type} (occ : ActualOccasion P S) (d : Datum P)
    (h : ∀ b ∈ occ.bindings, b.1 d = false) : occ.handle d = (occ, []) := by
  simp [ActualOccasion.handle, handleAux_no_match d occ.state occ.bindings h]

lemma processOne_no_match {P S : Type} (mws : List (Datum P → Datum P))
    (current : Datum P) (occs : List (ActualOccasion P S)) (clock : Nat)
    (h : ∀ occ ∈ occs, occ.handle current = (occ, [])) :
    processOne mws current occs clock = ⟨occs, [], [], clock⟩ := by
  induction occs with
  | nil => rfl
  | cons occ rest ih =>
    have hocc := h occ (List.mem_cons_self occ rest)
    have hrest := ih fun o ho => h o (List.mem_cons_of_mem _ ho)
    simp [processOne, hocc, rewriteAll, hrest]

lemma emitRun_no_occs {P S : Type} (mws : List (Datum P → Datum P))
    (queue seen : List (Datum P)) (clock : Nat) :
    emitRun mws queue.length ([] : List (ActualOccasion P S)) queue seen clock
      = ⟨seen ++ queue, [], [], clock⟩ := by
  induction queue generalizing seen with
  | nil => simp [emitRun]
  | cons c rest ih =>
    simp only [List.length_cons, emitRun, processOne, List.append_nil]
    rw [ih]
    simp

lemma processOne_appended {P S : Type} (mws : List (Datum P → Datum P))
    (current : Datum P) (occs : List (ActualOccasion P S)) (clock : Nat) :
    (processOne mws current occs clock).appended
      = (processOne mws current occs clock).rewritten.map (applyMiddlewares mws) := by
  induction occs generalizing clock with
  | nil => rfl
  | cons occ rest ih => simp [processOne, ih]

lemma processOne_split {P S : Type} (mws : List (Datum P → Datum P))
    (current : Datum P) (occs1 occs2 : List (ActualOccasion P S)) (clock : Nat) :
    processOne mws current (occs1 ++ occs2) clock
      = ⟨(processOne mws current occs1 clock).occs
            ++ (processOne mws current occs2
                  (processOne mws current occs1 clock).clock).occs,
         (processOne mws current occs1 clock).rewritten
            ++ (processOne mws current occs2
                  (processOne mws current occs1 clock).clock).rewritten,
         (processOne mws current occs1 clock).appended
            ++ (processOne mws current occs2
                  (processOne mws current occs1 clock).clock).appended,
         (processOne mws current occs2
            (processOne mws current occs1 clock).clock).clock⟩ := by
  induction occs1 generalizing clock with
  | nil => simp [processOne]
  | cons occ rest ih => simp [processOne, ih]

lemma mem_rewriteAll_ids {P : Type} (current : Datum P) (ds : List (Datum P))
    (k : Nat) (f : Datum P) (hf : f ∈ (rewriteAll current ds k).1) :
    f.causation_id = some current.id
      ∧ f.correlation_id = some (pyOrElse current.correlation_id current.id) := by
  induction ds generalizing k with
  | nil => simp [rewriteAll] at hf
  | cons d rest ih =>
    simp only [rewriteAll, List.mem_cons] at hf
    rcases hf with hf | hf
    · subst hf
      exact ⟨rfl, rfl⟩
    · exact ih (k + 1) hf

lemma rewriteAll_fst_length {P : Type} (current : Datum P) (ds : List (Datum P))
    (k : Nat) : (rewriteAll current ds k).1.length = ds.length := by
  induction ds generalizing k with
  | nil => rfl
  | cons d rest ih => simp [rewriteAll, ih]

lemma rewriteAll_snd {P : Type} (current : Datum P) (ds : List (Datum P))
    (k : Nat) : (rewriteAll current ds k).2 = k + ds.length := by
  induction ds generalizing k with
  | nil => simp [rewriteAll]
  | cons d rest ih =>
    simp only [rewriteAll, ih, List.length_cons]
    omega

lemma rewriteAll_fst_getElem? {P : Type} (current : Datum P)
    (ds : List (Datum P)) (k i : Nat) :
    (rewriteAll current ds k).1[i]?
      = (ds[i]?).map (fun d => rewriteDerived current d (k + i)) := by
  induction ds generalizing k i with
  | nil => simp [rewriteAll]
  | cons d rest ih =>
    cases i with
    | zero => simp [rewriteAll]
    | succ j =>
      simp only [rewriteAll, List.getElem?_cons_succ, ih (k + 1) j]
      have : k + 1 + j = k + (j + 1) := by omega
      rw [this]

lemma addOne_map_name {P S : Type} (occs : List (ActualOccasion P S))
    (r : ActualOccasion P S) :
    (addOne occs r).map (fun o => o.name)
      = if r.name ∈ occs.map (fun o => o.name) then occs.map (fun o => o.name)
        else occs.map (fun o => o.name) ++ [r.name] := by
  induction occs with
  | nil => simp [addOne]
  | cons o rest ih =>
    by_cases ho : o.name = r.name
    · simp [addOne, ho]
    · have hne : ¬ r.name = o.name := fun hh => ho hh.symm
      simp only [addOne, if_neg ho, List.map_cons, List.mem_cons, hne, false_or]
      rw [ih]
      by_cases hm : r.name ∈ rest.map (fun o => o.name)
      · simp [hm]
      · simp [hm]

lemma name_mem_addOne {P S : Type} (occs : List (ActualOccasion P S))
    (r : ActualOccasion P S) :
    r.name ∈ (addOne occs r).map (fun o => o.name) := by
  rw [addOne_map_name]
  by_cases hm : r.name ∈ occs.map (fun o => o.name)
  · simp [hm]
  · simp [hm]

lemma find?_addOne_dup {P S : Type} (occs : List (ActualOccasion P S))
    (r r' : ActualOccasion P S) (hname : r'.name = r.name) :
    List.find? (fun o => decide (o.name = r.name)) (addOne (addOne occs r) r')
      = some r' := by
  induction occs with
  | nil => simp [addOne, hname]
  | cons o rest ih =>
    by_cases ho : o.name = r.name
    · simp [addOne, ho, hname]
    · have ho' : ¬ o.name = r'.name := by rw [hname]; exact ho
      simp only [addOne, if_neg ho, if_neg ho', List.find?]
      simp only [ho, decide_False, List.find?_cons_of_neg]
      exact ih

lemma nodup_addOne {P S : Type} (occs : List (ActualOccasion P S))
    (r : ActualOccasion P S) (h : (occs.map (fun o => o.name)).Nodup) :
    ((addOne occs r).map (fun o => o.name)).Nodup := by
  rw [addOne_map_name]
  by_cases hm : r.name ∈ occs.map (fun o => o.name)
  · simp [hm, h]
  · simp [hm, List.nodup_append, h, List.disjoint_singleton]

lemma emitRun_queue_ne {P S : Type} (mws : List (Datum P → Datum P))
    (occs : List (ActualOccasion P S))
    (H : ∀ current clock, (processOne mws current occs clock).occs = occs
          ∧ (processOne mws current occs clock).appended ≠ []) :
    ∀ fuel (queue seen : List (Datum P)) (clock : Nat), queue ≠ [] →
      (emitRun mws fuel occs queue seen clock).queue ≠ [] := by
  intro fuel
  induction fuel with
  | zero =>
    intro queue seen clock hq
    cases queue with
    | nil => exact absurd rfl hq
    | cons c rest => simp [emitRun]
  | succ fuel ih =>
    intro queue seen clock hq
    cases queue with
    | nil => exact absurd rfl hq
    | cons c rest =>
      simp only [emitRun]
      rw [(H c clock).1]
      refine ih _ _ _ (fun he => (H c clock).2 ?_)
      exact (List.append_eq_nil.mp he).2

lemma processOne_echoAll (current : Datum Nat) (k : Nat) :
    (processOne ([] : List (Datum Nat → Datum Nat)) current [echoAllOcc] k).occs
        = [echoAllOcc]
      ∧ (processOne ([] : List (Datum Nat → Datum Nat)) current
          [echoAllOcc] k).appended ≠ [] := by
  constructor
  · rfl
  · simp [processOne, echoAllOcc, ActualOccasion.handle, handleAux, rewriteAll,
      applyMiddlewares]

lemma processOneE_error {P S E : Type} (mws : List (Datum P → Datum P))
    (current : Datum P) (pre : List (OccasionE P S E)) (bad : OccasionE P S E)
    (post : List (OccasionE P S E)) (e : E)
    (hpre : ∀ occ ∈ pre, ∃ ds, (handleE occ current).2 = Except.ok ds)
    (hbad : (handleE bad current).2 = Except.error e) :
    ∀ clock : Nat,
      (processOneE mws current (pre ++ bad :: post) clock).1
          = pre.map (fun o => (handleE o current).1)
              ++ (handleE bad current).1 :: post
        ∧ (processOneE mws current (pre ++ bad :: post) clock).2.2
            = Except.error e := by
  induction pre with
  | nil =>
    intro clock
    simp only [List.nil_append, List.map_nil, processOneE]
    rw [hbad]
    exact ⟨rfl, rfl⟩
  | cons occ pre ih =>
    intro clock
    obtain ⟨ds, hds⟩ := hpre occ (List.mem_cons_self _ _)
    have ih' := ih fun o ho => hpre o (List.mem_cons_of_mem _ ho)
    simp only [List.cons_append, processOneE, hds, List.append_eq]
    have h1 := (ih' (rewriteAll current ds clock).2).1
    have h2 := (ih' (rewriteAll current ds clock).2).2
    rw [h2]
    simp [h1]

lemma derivedFacts_cons {P S : Type} (occ : ActualOccasion P S)
    (rest : List (ActualOccasion P S)) (current : Datum P) :
    derivedFacts (occ :: rest) current
      = (occ.handle current).2 ++ derivedFacts rest current := by
  simp [derivedFacts]

/-!
Claim theorems.
-/

/-- C1, counterexample: while processing a fact whose correlation id is
present but empty (and with no middleware installed), the fact appended to
the queue does not carry that correlation id: the Python expression
(current.correlation_id or current.id) treats the empty string as absent and
substitutes current.id. -/
theorem queue_ids_blank_correlation_counterexample :
    ¬ ∀ f ∈ (processOne ([] : List (Datum Nat → Datum Nat)) curBlank
        [occRelay] 0).appended, f.correlation_id = curBlank.correlation_id := by
  decide

/-- C1 (amended): every rewritten derived fact produced while emit processes
the fact current - before the middleware chain is applied to it and it is
appended to the queue - carries causation id current.id and correlation id
current.correlation_id if that is present and nonempty, else current.id,
regardless of any correlation/causation values the reaction function set. -/
theorem emit_threads_ids {P S : Type} (mws : List (Datum P → Datum P))
    (current : Datum P) (occs : List (ActualOccasion P S)) (clock : Nat)
    (f : Datum P) (hf : f ∈ (processOne mws current occs clock).rewritten) :
    f.causation_id = some current.id
      ∧ f.correlation_id
          = some (match current.correlation_id with
              | none => current.id
              | some s => if s = "" then current.id else s) := by
  revert hf
  induction occs generalizing clock with
  | nil =>
    intro hf
    simp [processOne] at hf
  | cons occ rest ih =>
    intro hf
    simp only [processOne, List.mem_append] at hf
    rcases hf with hf | hf
    · exact mem_rewriteAll_ids current (occ.handle current).2 clock f hf
    · exact ih _ hf

/-- Witness for C1 (amended) at a concrete derived fact whose reaction
function had set its own correlation and causation values. -/
theorem emit_threads_ids_witness :
    rewriteDerived curRoot relayOut 0
        ∈ (processOne ([] : List (Datum Nat → Datum Nat)) curRoot
            [occRelay] 0).rewritten
      ∧ ((rewriteDerived curRoot relayOut 0).causation_id = some curRoot.id
          ∧ (rewriteDerived curRoot relayOut 0).correlation_id
              = some (match curRoot.correlation_id with
                  | none => curRoot.id
                  | some s => if s = "" then curRoot.id else s)) :=
  ⟨by decide, emit_threads_ids [] curRoot [occRelay] 0 _ (by decide)⟩

/-- C2: middlewares compose left to right - applying the chain of m1 then m2
to F yields m2 (m1 F); the full chain is applied to every initial fact
before it enters the queue, and to every rewritten derived fact before it is
appended to the queue. -/
theorem middleware_chain_composition {P S : Type} :
    (∀ (m1 m2 : Datum P → Datum P) (F : Datum P),
        applyMiddlewares [m1, m2] F = m2 (m1 F))
      ∧ (∀ (nm : String) (mws : List (Datum P → Datum P))
          (data : List (Datum P)) (clock : Nat),
          (Nexus.mk nm ([] : List (ActualOccasion P S)) mws).emitResult
              data data.length clock
            = some (data.map (applyMiddlewares mws)))
      ∧ (∀ (mws : List (Datum P → Datum P)) (current : Datum P)
          (occs : List (ActualOccasion P S)) (clock : Nat),
          (processOne mws current occs clock).appended
            = (processOne mws current occs clock).rewritten.map
                (applyMiddlewares mws)) := by
  refine ⟨fun m1 m2 F => rfl, fun nm mws data clock => ?_, processOne_appended⟩
  have h := emitRun_no_occs (S := S) mws (data.map (applyMiddlewares mws)) [] clock
  simp only [List.length_map] at h
  simp [Nexus.emitResult, Nexus.emit, h]

/-- C3, counterexample: with an echo reactor that matches every fact (the
configuration the claim describes), emit never terminates - the queue is
never exhausted, whatever the fuel - so it cannot return the four facts the
claim promises. -/
theorem echo_all_facts_diverges :
    ¬ ∃ fuel out, nexusEchoAll.emitResult [firstFact, secondFact] fuel 0
        = some out := by
  rintro ⟨fuel, out, h⟩
  have hq := emitRun_queue_ne ([] : List (Datum Nat → Datum Nat)) [echoAllOcc]
    processOne_echoAll fuel
    ([firstFact, secondFact].map (applyMiddlewares [])) [] 0 (by simp)
  simp only [Nexus.emitResult, Nexus.emit, nexusEchoAll] at h
  rw [if_neg] at h
  · exact Option.noConfusion h
  · simpa using hq

/-- C3 (amended): with an echo reactor that matches the two initial facts
but not its own echo outputs, emitting first and second returns exactly four
facts, named first, second, echo_first, echo_second in that order - both
inputs are observed before any of their derivatives. -/
theorem echo_breadth_first_order :
    (nexusEcho.emitResult [firstFact, secondFact] 4 0).map
        (fun l => l.map (fun f => f.name))
      = some ["first", "second", "echo_first", "echo_second"] := by
  decide

/-- C4: while one fact is processed, all queue appends coming from the first
registered reactor precede all of those coming from the second, and within
one reactor the appended facts keep the order its bindings yielded them. -/
theorem fanout_reactor_order {P S : Type} :
    (∀ (mws : List (Datum P → Datum P)) (r1 r2 : ActualOccasion P S)
        (current : Datum P) (clock : Nat),
        (processOne mws current [r1, r2] clock).appended
          = (processOne mws current [r1] clock).appended
            ++ (processOne mws current [r2]
                  (processOne mws current [r1] clock).clock).appended)
      ∧ (∀ (mws : List (Datum P → Datum P)) (r : ActualOccasion P S)
          (current : Datum P) (clock : Nat),
          (processOne mws current [r] clock).appended
            = (rewriteAll current (r.handle current).2 clock).1.map
                (applyMiddlewares mws)) := by
  constructor
  · intro mws r1 r2 current clock
    have heq : ([r1] ++ [r2] : List (ActualOccasion P S)) = [r1, r2] := rfl
    have h := processOne_split mws current [r1] [r2] clock
    rw [heq] at h
    rw [h]
  · intro mws r current clock
    simp [processOne]

/-- C5: for an occasion with two bindings whose selectors both match a fact,
handle runs the first form exactly once on the initial state, then the
second form exactly once on the state the first left behind, and yields the
first form's facts, in their order, before the second form's facts. -/
theorem binding_order_determinism {P S : Type} (nm : String) (s : S)
    (d : Datum P) (sel1 sel2 : DatumSelector P) (f1 f2 : SubjectiveForm P S)
    (h1 : sel1 d = true) (h2 : sel2 d = true) :
    (ActualOccasion.mk nm s [(sel1, f1), (sel2, f2)]).handle d
      = (ActualOccasion.mk nm (f2 (f1 s d).1 d).1 [(sel1, f1), (sel2, f2)],
         (f1 s d).2 ++ (f2 (f1 s d).1 d).2) := by
  simp [ActualOccasion.handle, handleAux, h1, h2]

/-- Witness for C5 at two concrete always-matching bindings. -/
theorem binding_order_determinism_witness :
    selTrue tickA = true ∧ selTrue tickA = true
      ∧ (ActualOccasion.mk "two" (0 : Nat)
            [(selTrue, formA), (selTrue, formB)]).handle tickA
        = (ActualOccasion.mk "two" (formB (formA 0 tickA).1 tickA).1
              [(selTrue, formA), (selTrue, formB)],
           (formA 0 tickA).2 ++ (formB (formA 0 tickA).1 tickA).2) :=
  ⟨rfl, rfl,
    binding_order_determinism "two" 0 tickA selTrue selTrue formA formB rfl rfl⟩

/-- C6: emitting one fact on a dispatcher whose occasions all fail to
select the in-flight fact (which covers a dispatcher with no occasions)
terminates within one queue step and returns exactly that fact with the
middleware chain applied; no occasion changes. -/
theorem no_match_passthrough {P S : Type} (n : Nexus P S) (F : Datum P)
    (clock : Nat)
    (h : ∀ occ ∈ n.occasions, ∀ b ∈ occ.bindings,
      b.1 (applyMiddlewares n.middlewares F) = false) :
    n.emitResult [F] 1 clock = some [applyMiddlewares n.middlewares F]
      ∧ (n.emit [F] 1 clock).occs = n.occasions := by
  have hstep : processOne n.middlewares (applyMiddlewares n.middlewares F)
      n.occasions clock = ⟨n.occasions, [], [], clock⟩ :=
    processOne_no_match _ _ _ _ fun occ ho =>
      handle_no_match occ _ fun b hb => h occ ho b hb
  constructor
  · simp [Nexus.emitResult, Nexus.emit, emitRun, hstep]
  · simp [Nexus.emit, emitRun, hstep]

/-- Witness for C6 on a dispatcher holding one occasion whose selector never
matches. -/
theorem no_match_passthrough_witness :
    (∀ occ ∈ nexusIdle.occasions, ∀ b ∈ occ.bindings,
        b.1 (applyMiddlewares nexusIdle.middlewares tickA) = false)
      ∧ (nexusIdle.emitResult [tickA] 1 0
            = some [applyMiddlewares nexusIdle.middlewares tickA]
          ∧ (nexusIdle.emit [tickA] 1 0).occs = nexusIdle.occasions) :=
  ⟨by decide, no_match_passthrough nexusIdle tickA 0 (by decide)⟩

/-- C7: the first raising selector or reaction function aborts emit at once
with that exception; occasions before the failure keep the state mutations
already applied (nothing is rolled back), occasions after it and every fact
still queued are never touched, and the observed list - local to emit - is
lost with the exception. -/
theorem emit_error_aborts {P S E : Type} (mws : List (Datum P → Datum P))
    (pre : List (OccasionE P S E)) (bad : OccasionE P S E)
    (post : List (OccasionE P S E)) (current : Datum P)
    (rest seen : List (Datum P)) (clock fuel : Nat) (e : E)
    (hpre : ∀ occ ∈ pre, ∃ ds, (handleE occ current).2 = Except.ok ds)
    (hbad : (handleE bad current).2 = Except.error e) :
    emitRunE mws (fuel + 1) (pre ++ bad :: post) (current :: rest) seen clock
      = (pre.map (fun o => (handleE o current).1)
          ++ (handleE bad current).1 :: post,
         some (Except.error e)) := by
  have h := processOneE_error mws current pre bad post e hpre hbad clock
  simp only [emitRunE]
  rw [h.2]
  simp [h.1]

/-- Witness for C7: a mutating occasion, then a raising one, then one that
would mutate if reached; the error escapes, the first mutation persists, the
third occasion is untouched. -/
theorem emit_error_aborts_witness :
    (∀ occ ∈ [occMut], ∃ ds, (handleE occ curBoom).2 = Except.ok ds)
      ∧ (handleE occBoom curBoom).2 = Except.error "boom"
      ∧ emitRunE ([] : List (Datum Nat → Datum Nat)) (5 + 1)
          ([occMut] ++ occBoom :: [occAfter]) (curBoom :: [curBoom]) [] 0
          = ([occMut].map (fun o => (handleE o curBoom).1)
              ++ (handleE occBoom curBoom).1 :: [occAfter],
             some (Except.error "boom")) := by
  have hpre : ∀ occ ∈ [occMut], ∃ ds, (handleE occ curBoom).2 = Except.ok ds := by
    intro occ ho
    simp only [List.mem_singleton] at ho
    subst ho
    exact ⟨[], rfl⟩
  exact ⟨hpre, rfl,
    emit_error_aborts [] [occMut] occBoom [occAfter] curBoom [curBoom] [] 0 5
      "boom" hpre rfl⟩

/-- C8: registering a second occasion under an existing name silently
replaces the prior one - lookup under that name now finds the new occasion,
the set of registered names is unchanged, and name uniqueness is
preserved. -/
theorem duplicate_name_replaces {P S : Type} (n : Nexus P S)
    (r r' : ActualOccasion P S) (hname : r'.name = r.name) :
    List.find? (fun o => decide (o.name = r.name))
        ((n.add [r]).add [r']).occasions = some r'
      ∧ ((n.add [r]).add [r']).occasions.map (fun o => o.name)
          = (n.add [r]).occasions.map (fun o => o.name)
      ∧ ((n.occasions.map (fun o => o.name)).Nodup →
          (((n.add [r]).add [r']).occasions.map (fun o => o.name)).Nodup) := by
  simp only [Nexus.add, List.foldl]
  refine ⟨find?_addOne_dup n.occasions r r' hname, ?_, ?_⟩
  · rw [addOne_map_name]
    have hmem : r'.name ∈ (addOne n.occasions r).map (fun o => o.name) := by
      rw [hname]
      exact name_mem_addOne n.occasions r
    simp [hmem]
  · intro hnd
    exact nodup_addOne _ r' (nodup_addOne n.occasions r hnd)

/-- Witness for C8: two occasions registered in turn under the name dup. -/
theorem duplicate_name_replaces_witness :
    occDup2.name = occDup1.name
      ∧ (List.find? (fun o => decide (o.name = occDup1.name))
            ((nexusBare.add [occDup1]).add [occDup2]).occasions = some occDup2
          ∧ ((nexusBare.add [occDup1]).add [occDup2]).occasions.map
                (fun o => o.name)
              = (nexusBare.add [occDup1]).occasions.map (fun o => o.name)
          ∧ ((nexusBare.occasions.map (fun o => o.name)).Nodup →
              (((nexusBare.add [occDup1]).add [occDup2]).occasions.map
                  (fun o => o.name)).Nodup)) :=
  ⟨rfl, duplicate_name_replaces nexusBare occDup1 occDup2 rfl⟩

/-- C9: snapshot reads the live occasion states: freshly constructed, the
counter dispatcher snapshots to zero; after one emit that increments the
counter the snapshot shows one, and after a second emit on the resulting
dispatcher it shows two - the cumulative mutated state, not a frozen
value. -/
theorem snapshot_reflects_cumulative_state :
    nexusCtr.snapshot = [("counter", 0)]
      ∧ (nexusCtr.emit [tickA] 1 0).queue = []
      ∧ (Nexus.mk "nx" (nexusCtr.emit [tickA] 1 0).occs [] : Nexus Nat Nat).snapshot
          = [("counter", 1)]
      ∧ ((Nexus.mk "nx" (nexusCtr.emit [tickA] 1 0).occs []).emit
          [tickB] 1 0).queue = []
      ∧ (Nexus.mk "nx"
            ((Nexus.mk "nx" (nexusCtr.emit [tickA] 1 0).occs []).emit
              [tickB] 1 0).occs [] : Nexus Nat Nat).snapshot
          = [("counter", 2)] := by
  decide

/-- C10: the rewrite emit applies to each derived fact keeps exactly the
name, payload and id of the fact the reaction function produced, while its
created_at is the fresh clock tick drawn at construction time - independent
of the created_at the reaction function had put on the fact. -/
theorem rewrite_fresh_created_at {P S : Type} (mws : List (Datum P → Datum P))
    (current : Datum P) (occs : List (ActualOccasion P S)) (clock i : Nat) :
    ((processOne mws current occs clock).rewritten[i]?).map (fun f => f.name)
        = ((derivedFacts occs current)[i]?).map (fun d => d.name)
      ∧ ((processOne mws current occs clock).rewritten[i]?).map
            (fun f => f.payload)
          = ((derivedFacts occs current)[i]?).map (fun d => d.payload)
      ∧ ((processOne mws current occs clock).rewritten[i]?).map (fun f => f.id)
          = ((derivedFacts occs current)[i]?).map (fun d => d.id)
      ∧ ((processOne mws current occs clock).rewritten[i]?).map
            (fun f => f.created_at)
          = ((derivedFacts occs current)[i]?).map (fun _ => clock + i) := by
  induction occs generalizing clock i with
  | nil => simp [processOne, derivedFacts]
  | cons occ rest ih =>
    by_cases hi : i < (occ.handle current).2.length
    · have hi' : i < (rewriteAll current (occ.handle current).2 clock).1.length := by
        rw [rewriteAll_fst_length]
        exact hi
      simp only [processOne, derivedFacts_cons]
      rw [List.getElem?_append_left hi', List.getElem?_append_left hi,
        rewriteAll_fst_getElem?]
      cases h : ((occ.handle current).2)[i]? with
      | none => simp
      | some d => simp [rewriteDerived]
    · push_neg at hi
      have hi' : (rewriteAll current (occ.handle current).2 clock).1.length ≤ i := by
        rw [rewriteAll_fst_length]
        exact hi
      simp only [processOne, derivedFacts_cons]
      rw [List.getElem?_append_right hi', List.getElem?_append_right hi,
        rewriteAll_fst_length, rewriteAll_snd]
      have harith : clock + (occ.handle current).2.length
          + (i - (occ.handle current).2.length) = clock + i := by
        omega
      have hgoal := ih (clock + (occ.handle current).2.length)
        (i - (occ.handle current).2.length)
      simp only [harith] at hgoal
      exact hgoal

end EventFramework
